import Mathlib

/-!
Verification development for `q1.c`, a command-line tool that tabulates a
tangent-line extrapolation of a quadratic polynomial against its true value.

The embedding is shallow and exact: C `double` arithmetic is modelled by `ℚ`
(the program's claims under scrutiny are algebraic and structural, stated by
the specification over real numbers), console output is modelled as a list of
tagged lines (`OutLine`) plus a rendering function `render` that mirrors the
`printf` format strings, and the process-wide `static bool firstCall` is
modelled by explicit state passing through the loop.
-/

namespace Q1

/-- number of extrapolation steps to compute (`const int stepLimit = 1000`). -/
def stepLimit : ℕ := 1000

/-- increment applied at each step (`const double stepSize = 0.001`),
as the exact rational 1/1000. -/
def stepSize : ℚ := 1 / 1000

/-- Embeds `func` of q1.c: computes a*x^2 + b*x + c by the source's
sequence of fused steps (Horner order). -/
def func (a b c x : ℚ) : ℚ :=
  let fval := a
  let fval := fval * x + b
  let fval := fval * x + c
  fval

/-- Embeds `funcPrime` of q1.c: value of the derivative of `func` at x. -/
def funcPrime (a b x : ℚ) : ℚ :=
  let slopeval := 2 * a
  let slopeval := slopeval * x + b
  slopeval

/-- Embeds `extrapolate` of q1.c: approximates func(x + h) from func(x)
and the slope sampled at x + h. -/
def extrapolate (a b c x h : ℚ) : ℚ :=
  let slope := funcPrime a b (x + h)
  let vchange := h * slope
  let estimate := func a b c x + vchange
  estimate

/-- C1: for all coefficients (a, b, c), base point x and offset h,
`extrapolate` returns func(a,b,c,x) + h * funcPrime(a,b,x+h): the slope is
sampled at the offset point x + h while the base value is sampled at the
unshifted point x. -/
theorem extrapolate_slope_at_offset (a b c x h : ℚ) :
    extrapolate a b c x h = func a b c x + h * funcPrime a b (x + h) := rfl

/-- C3: extrapolating with zero offset returns exactly the evaluator's value
at the base point. -/
theorem extrapolate_zero_offset (a b c x : ℚ) :
    extrapolate a b c x 0 = func a b c x := by
  simp [extrapolate]

/-- C4: the quadratic evaluator returns a*p^2 + b*p + c, and its computation
is exactly the Horner form ((a)*p + b)*p + c. -/
theorem func_horner (a b c p : ℚ) :
    func a b c p = a * p ^ 2 + b * p + c ∧
    func a b c p = ((a * p) + b) * p + c := by
  refine ⟨?_, rfl⟩
  unfold func
  ring

/-- C5: the derivative evaluator returns 2*a*p + b; it takes no constant
coefficient argument at all, so its result cannot depend on c. -/
theorem funcPrime_formula (a b p : ℚ) :
    funcPrime a b p = 2 * a * p + b := by
  unfold funcPrime
  ring

/-- C10: in exact arithmetic the per-row error, true value minus the
approximation, is exactly -a*h^2, independent of b, c and x. -/
theorem error_closed_form (a b c x h : ℚ) :
    func a b c (x + h) - extrapolate a b c x h = -(a * h ^ 2) := by
  unfold extrapolate func funcPrime
  ring

/-- One line of console output, tagged by which `printf` call produced it.
`usage1`/`usage2` are the two usage-message lines, `errA` the zero-coefficient
error line, `header1`/`header2` the two column-header lines, and `data`
carries the three numeric arguments of a data row (the error column is
computed at rendering time, as in the source `printf`). -/
inductive OutLine where
  | usage1 | usage2 | errA | header1 | header2
  | data (xh approx direct : ℚ)
deriving DecidableEq

/-- Embeds `writeExtrapolation` of q1.c with the `static bool firstCall`
made an explicit input/output: returns the emitted lines and the new flag. -/
def writeExtrapolation (firstCall : Bool) (xh approx direct : ℚ) :
    List OutLine × Bool :=
  let (hdr, fc) :=
    if firstCall then ([OutLine.header1, OutLine.header2], false)
    else ([], firstCall)
  (hdr ++ [OutLine.data xh approx direct], fc)

/-- Embeds the `for` loop of `main`: `n` remaining iterations, current step
offset `h`, current first-call flag `fc`; returns all output lines. -/
def mainLoop (a b c x : ℚ) : ℕ → ℚ → Bool → List OutLine
  | 0, _, _ => []
  | n + 1, h, fc =>
    let approximation := extrapolate a b c x h
    let funcval := func a b c (x + h)
    let (out, fc') := writeExtrapolation fc (x + h) approximation funcval
    out ++ mainLoop a b c x n (h + stepSize) fc'

/-- Consumes the longest leading run of decimal digits: accumulates their
value into `acc`, counts them in `k`, and returns the rest of the input. -/
def parseDigitsAux : ℕ → ℕ → List Char → ℕ × ℕ × List Char
  | acc, k, [] => (acc, k, [])
  | acc, k, ch :: cs =>
    if ch.isDigit then parseDigitsAux (10 * acc + (ch.toNat - 48)) (k + 1) cs
    else (acc, k, ch :: cs)

/-- Embeds C `atof` for plain decimal literals (the forms `main` feeds it):
skip leading spaces, optional sign, digits, optional point and digits.
Text with no leading numeric prefix yields 0 rather than an error. -/
def atof (s : String) : ℚ :=
  let cs := s.data.dropWhile (fun ch => ch = ' ')
  let (sgn, cs) : ℚ × List Char :=
    match cs with
    | '-' :: rest => (-1, rest)
    | '+' :: rest => (1, rest)
    | _ => (1, cs)
  let (ipart, _, cs) := parseDigitsAux 0 0 cs
  let fpart : ℚ :=
    match cs with
    | '.' :: rest =>
      let (fval, k, _) := parseDigitsAux 0 0 rest
      (fval : ℚ) / 10 ^ k
    | _ => 0
  sgn * ((ipart : ℚ) + fpart)

/-- Result of a run of `main`: the process exit code and the console output. -/
structure MainResult where
  exitCode : ℕ
  output : List OutLine
deriving DecidableEq

/-- Embeds `main` of q1.c over the argument vector beyond the program name
(so C `argc != 5` is the failure of the four-element match). -/
def main (args : List String) : MainResult :=
  match args with
  | [s1, s2, s3, s4] =>
    let a := atof s1
    let b := atof s2
    let c := atof s3
    let x := atof s4
    if a = 0 then { exitCode := 2, output := [OutLine.errA] }
    else { exitCode := 0, output := mainLoop a b c x stepLimit 0 true }
  | _ => { exitCode := 1, output := [OutLine.usage1, OutLine.usage2] }

/-- Position (`x + h`) carried by a data row; `none` for non-data lines. -/
def lineData : OutLine → Option ℚ
  | OutLine.data xh _ _ => some xh
  | _ => none

/-- Positions of the data rows of an output, in print order. -/
def dataPositions (ls : List OutLine) : List ℚ := ls.filterMap lineData

@[simp] theorem lineData_usage1 : lineData OutLine.usage1 = none := rfl

@[simp] theorem lineData_usage2 : lineData OutLine.usage2 = none := rfl

@[simp] theorem lineData_errA : lineData OutLine.errA = none := rfl

@[simp] theorem lineData_header1 : lineData OutLine.header1 = none := rfl

@[simp] theorem lineData_header2 : lineData OutLine.header2 = none := rfl

@[simp] theorem lineData_data (xh approx direct : ℚ) :
    lineData (OutLine.data xh approx direct) = some xh := rfl

theorem dataPositions_append (l1 l2 : List OutLine) :
    dataPositions (l1 ++ l2) = dataPositions l1 ++ dataPositions l2 :=
  List.filterMap_append l1 l2 lineData

/-- Data-row positions of the loop: one row per iteration, the i-th at
x + h + i * stepSize. -/
theorem mainLoop_dataPositions (a b c x : ℚ) :
    ∀ (n : ℕ) (h : ℚ) (fc : Bool),
      dataPositions (mainLoop a b c x n h fc) =
        (List.range n).map (fun i : ℕ => x + h + (i : ℚ) * stepSize) := by
  intro n
  induction n with
  | zero => intro h fc; rfl
  | succ n ih =>
    intro h fc
    have hdp : dataPositions (mainLoop a b c x (n + 1) h fc) =
        (x + h) :: dataPositions (mainLoop a b c x n (h + stepSize) false) := by
      cases fc <;> rfl
    rw [hdp, ih, List.range_succ_eq_map, List.map_cons, List.map_map]
    congr 1
    · push_cast; ring
    · refine List.map_congr_left (fun i _ => ?_)
      simp only [Function.comp_apply]
      push_cast
      ring

/-- Unfolding of one loop iteration with the flag still true: the two header
lines come out first, then this iteration's data row, then the rest of the
loop with the flag permanently false. -/
theorem mainLoop_true_unfold (a b c x h : ℚ) (m : ℕ) :
    mainLoop a b c x (m + 1) h true =
      OutLine.header1 :: OutLine.header2 ::
        OutLine.data (x + h) (extrapolate a b c x h) (func a b c (x + h)) ::
          mainLoop a b c x m (h + stepSize) false := rfl

/-- Once the flag is false it stays false, so no later iteration emits a
header line. -/
theorem header_not_mem_mainLoop_false (a b c x : ℚ) :
    ∀ (n : ℕ) (h : ℚ),
      OutLine.header1 ∉ mainLoop a b c x n h false ∧
      OutLine.header2 ∉ mainLoop a b c x n h false := by
  intro n
  induction n with
  | zero => intro h; simp [mainLoop]
  | succ n ih =>
    intro h
    have hu : mainLoop a b c x (n + 1) h false =
        OutLine.data (x + h) (extrapolate a b c x h) (func a b c (x + h)) ::
          mainLoop a b c x n (h + stepSize) false := rfl
    rw [hu]
    have hih := ih (h + stepSize)
    simp [List.mem_cons, hih.1, hih.2]

/-- C6: in every run of the loop that prints at least one data row, starting
with the first-call flag true, each of the two header lines is printed
exactly once, and they come before the first data row, regardless of the
number of iterations. -/
theorem header_printed_once (a b c x h : ℚ) (n : ℕ) (hn : 0 < n) :
    (mainLoop a b c x n h true).take 2 = [OutLine.header1, OutLine.header2] ∧
    (mainLoop a b c x n h true).count OutLine.header1 = 1 ∧
    (mainLoop a b c x n h true).count OutLine.header2 = 1 := by
  obtain ⟨m, rfl⟩ : ∃ m, n = m + 1 := ⟨n - 1, (Nat.succ_pred_eq_of_pos hn).symm⟩
  rw [mainLoop_true_unfold]
  have h1 := (header_not_mem_mainLoop_false a b c x m (h + stepSize)).1
  have h2 := (header_not_mem_mainLoop_false a b c x m (h + stepSize)).2
  refine ⟨rfl, ?_, ?_⟩
  · simp [List.count_cons, List.count_eq_zero.mpr h1]
  · simp [List.count_cons, List.count_eq_zero.mpr h2]

/-- C6 witness: a one-iteration run at a = 1, b = 0, c = 0, x = 0, h = 0. -/
theorem header_printed_once_witness :
    (mainLoop 1 0 0 0 1 0 true).take 2 = [OutLine.header1, OutLine.header2] ∧
    (mainLoop 1 0 0 0 1 0 true).count OutLine.header1 = 1 ∧
    (mainLoop 1 0 0 0 1 0 true).count OutLine.header2 = 1 :=
  header_printed_once 1 0 0 0 0 1 (by decide)

/-- C2: on a successful run (exactly four arguments, a ≠ 0) the driver exits
with code 0 and prints exactly `stepLimit` = 1000 data rows, the i-th at
position x + h with offset h = i * stepSize, so h runs through
0.000, 0.001, ..., 0.999 and the positions are strictly increasing. -/
theorem main_success_table (s1 s2 s3 s4 : String) (ha : atof s1 ≠ 0) :
    (main [s1, s2, s3, s4]).exitCode = 0 ∧
    dataPositions (main [s1, s2, s3, s4]).output =
      (List.range stepLimit).map
        (fun i : ℕ => atof s4 + (i : ℚ) * stepSize) ∧
    (dataPositions (main [s1, s2, s3, s4]).output).length = stepLimit ∧
    List.Chain' (· < ·) (dataPositions (main [s1, s2, s3, s4]).output) := by
  have hm : main [s1, s2, s3, s4] =
      { exitCode := 0,
        output :=
          mainLoop (atof s1) (atof s2) (atof s3) (atof s4) stepLimit 0 true } := by
    simp only [main, if_neg ha]
  have hdp := mainLoop_dataPositions (atof s1) (atof s2) (atof s3) (atof s4)
    stepLimit 0 true
  simp only [add_zero] at hdp
  rw [hm]
  refine ⟨rfl, hdp, ?_, ?_⟩
  · rw [hdp]
    simp [stepLimit]
  · rw [hdp, List.chain'_map]
    have h1000 : stepLimit = Nat.succ 999 := rfl
    rw [h1000, List.chain'_range_succ]
    intro m _
    have hcast : (m : ℚ) < (Nat.succ m : ℚ) := by exact_mod_cast Nat.lt_succ_self m
    have hpos : (0 : ℚ) < stepSize := by norm_num [stepSize]
    have := mul_lt_mul_of_pos_right hcast hpos
    linarith

/-- C2 witness: the run `q1 1 2 3 5`. -/
theorem main_success_table_witness :
    (main ["1", "2", "3", "5"]).exitCode = 0 ∧
    dataPositions (main ["1", "2", "3", "5"]).output =
      (List.range stepLimit).map
        (fun i : ℕ => atof "5" + (i : ℚ) * stepSize) ∧
    (dataPositions (main ["1", "2", "3", "5"]).output).length = stepLimit ∧
    List.Chain' (· < ·) (dataPositions (main ["1", "2", "3", "5"]).output) :=
  main_success_table "1" "2" "3" "5"
    (by norm_num +decide [atof, parseDigitsAux, List.dropWhile,
          show Char.toNat '1' = 49 from rfl])

/-- C7: with any argument count other than four beyond the program name the
driver prints the usage message, produces no data rows, and exits with
code 1. -/
theorem wrong_arg_count_exits_one (args : List String)
    (hlen : args.length ≠ 4) :
    (main args).exitCode = 1 ∧
    (main args).output = [OutLine.usage1, OutLine.usage2] ∧
    dataPositions (main args).output = [] := by
  rcases args with _ | ⟨a1, _ | ⟨a2, _ | ⟨a3, _ | ⟨a4, _ | ⟨a5, rest⟩⟩⟩⟩⟩
  · exact ⟨rfl, rfl, rfl⟩
  · exact ⟨rfl, rfl, rfl⟩
  · exact ⟨rfl, rfl, rfl⟩
  · exact ⟨rfl, rfl, rfl⟩
  · exact absurd rfl hlen
  · exact ⟨rfl, rfl, rfl⟩

/-- C7 witness: three arguments exit with code 1 and print no table. -/
theorem wrong_arg_count_exits_one_witness :
    (main ["1", "2", "3"]).exitCode = 1 ∧
    (main ["1", "2", "3"]).output = [OutLine.usage1, OutLine.usage2] ∧
    dataPositions (main ["1", "2", "3"]).output = [] :=
  wrong_arg_count_exits_one ["1", "2", "3"] (by decide)

/-- C8: with four arguments whose first parses to exactly 0 the driver
prints the zero-coefficient error message, produces no data rows, and exits
with code 2; the comparison in `main` is exact equality with 0. -/
theorem zero_leading_coeff_exits_two (s1 s2 s3 s4 : String)
    (ha : atof s1 = 0) :
    (main [s1, s2, s3, s4]).exitCode = 2 ∧
    (main [s1, s2, s3, s4]).output = [OutLine.errA] ∧
    dataPositions (main [s1, s2, s3, s4]).output = [] := by
  have hm : main [s1, s2, s3, s4] =
      { exitCode := 2, output := [OutLine.errA] } := by
    simp only [main, if_pos ha]
  rw [hm]
  exact ⟨rfl, rfl, rfl⟩

/-- C8 witness: the malformed first argument "abc" is parsed leniently to 0
by `atof`, so it reaches the exit-2 path. -/
theorem zero_leading_coeff_exits_two_witness :
    (main ["abc", "1", "1", "1"]).exitCode = 2 ∧
    (main ["abc", "1", "1", "1"]).output = [OutLine.errA] ∧
    dataPositions (main ["abc", "1", "1", "1"]).output = [] :=
  zero_leading_coeff_exits_two "abc" "1" "1" "1"
    (by norm_num +decide [atof, parseDigitsAux, List.dropWhile])

/-- Three-digit zero-padded decimal rendering of k mod 1000: the fractional
digits of a %.3f conversion. -/
def pad3 (k : ℕ) : String :=
  ⟨[Nat.digitChar (k / 100 % 10), Nat.digitChar (k / 10 % 10),
    Nat.digitChar (k % 10)]⟩

/-- Fixed-point rendering with three decimals, modelling the %.3f conversion
of printf on the exact rational: round to the nearest thousandth, then print
sign, integer part, a decimal point and exactly three fractional digits. -/
def fixed3 (q : ℚ) : String :=
  let n : ℤ := round (q * 1000)
  ((if n < 0 then "-" else "") ++ toString (n.natAbs / 1000)) ++ "." ++
    pad3 (n.natAbs % 1000)

/-- Left padding with spaces to a minimum field width w, modelling the
printf width specifier: fields are right-aligned and expand when the content
is longer than w. -/
def padLeft (w : ℕ) (s : String) : String :=
  ⟨List.replicate (w - s.length) ' '⟩ ++ s

/-- Renders one tagged output line to the exact text printed by q1.c; a data
row follows the format string of `writeExtrapolation`,
`%7.3f%19.3f%12.3f%10.3f\n`, with the error column computed as the true
value minus the approximation. -/
def render : OutLine → String
  | OutLine.usage1 => "Invocation: q1 a b c x\n"
  | OutLine.usage2 => "   where a, b, and c are decimal values and a is not 0.\n"
  | OutLine.errA => "a must not be zero!\n"
  | OutLine.header1 => "  x + h      approximation    f(x + h)     error\n"
  | OutLine.header2 => "------------------------------------------------\n"
  | OutLine.data xh approx direct =>
    padLeft 7 (fixed3 xh) ++ padLeft 19 (fixed3 approx) ++
      padLeft 12 (fixed3 direct) ++ padLeft 10 (fixed3 (direct - approx)) ++
        "\n"

/-- C9: a data row renders as the four fixed-point fields of widths 7, 19,
12 and 10 — position, approximation, true value, and error computed as true
value minus approximation — followed by one newline; padding is with spaces
on the left of the content (right alignment), a field whose content fits its
width has exactly that width, and every fixed3 content ends in a decimal
point followed by exactly three digits. -/
theorem data_row_format (xh approx direct : ℚ) :
    render (OutLine.data xh approx direct) =
      padLeft 7 (fixed3 xh) ++ padLeft 19 (fixed3 approx) ++
        padLeft 12 (fixed3 direct) ++ padLeft 10 (fixed3 (direct - approx)) ++
          "\n" ∧
    (∀ (w : ℕ) (s : String),
      (padLeft w s).data = List.replicate (w - s.length) ' ' ++ s.data) ∧
    (∀ (w : ℕ) (s : String), s.length ≤ w → (padLeft w s).length = w) ∧
    (∀ q : ℚ, ∃ pre : String,
      fixed3 q = pre ++ "." ++ pad3 ((round (q * 1000)).natAbs % 1000) ∧
      (pad3 ((round (q * 1000)).natAbs % 1000)).length = 3) := by
  refine ⟨rfl, ?_, ?_, ?_⟩
  · intro w s
    cases s
    rfl
  · intro w s hle
    cases s with
    | mk l =>
      have hd : (padLeft w (String.mk l)).length =
          (List.replicate (w - l.length) ' ' ++ l).length := rfl
      rw [hd, List.length_append, List.length_replicate]
      simp only [String.mk_length] at hle
      omega
  · intro q
    exact ⟨(if round (q * 1000) < 0 then "-" else "") ++
      toString ((round (q * 1000)).natAbs / 1000), rfl, rfl⟩

/-- C9 witness: instantiation of the row-format theorem at the first row of
the run `q1 1 2 3 5`. -/
theorem data_row_format_witness :
    render (OutLine.data 5 38 38) =
      padLeft 7 (fixed3 5) ++ padLeft 19 (fixed3 38) ++
        padLeft 12 (fixed3 38) ++ padLeft 10 (fixed3 (38 - 38)) ++ "\n" ∧
    (∀ (w : ℕ) (s : String),
      (padLeft w s).data = List.replicate (w - s.length) ' ' ++ s.data) ∧
    (∀ (w : ℕ) (s : String), s.length ≤ w → (padLeft w s).length = w) ∧
    (∀ q : ℚ, ∃ pre : String,
      fixed3 q = pre ++ "." ++ pad3 ((round (q * 1000)).natAbs % 1000) ∧
      (pad3 ((round (q * 1000)).natAbs % 1000)).length = 3) :=
  data_row_format 5 38 38

end Q1
